import Mathlib

/-!
Verification of the joplin2paperless-ngx conversion utilities.

Shallow embedding of `src/joplin_to_paperless.py` and
`src/upload_to_paperless.py`.  Filesystem paths are modelled as lists of
path components (`PyPath`); the existence test `Path.exists()` is an
abstract boolean predicate on such paths.  The regex scanning of the note
body is abstracted to its output: the list of `<img ...>` tag attribute
records, markdown `[alt](link)` pairs and `<a ...>...</a>` attribute
records the three `re.findall` passes produce (the markdown/anchor lists
are the ones found after the img tags were stripped from the content).
Link targets are taken post `urllib.parse.unquote`.  Everything below the
match level — extension inference, path resolution, deduplication, the
per-note driver, timestamp parsing, and the upload status handling — is
translated directly from the source.
-/

namespace J2P

/-- A filesystem path as a list of name components. -/
abbrev PyPath := List String

/-! ### Model of the Python `pathlib` fragment used by the source:
`PurePath(s).name`, `PurePath(s).suffix`, `str.lower`, `str.replace`
with a one-character pattern, and the `/` join with a bare name. -/

/-- Split a character list on `/` separators (pieces may be empty). -/
def splitOnSlash : List Char → List (List Char)
  | [] => [[]]
  | c :: cs =>
    if c = '/' then [] :: splitOnSlash cs
    else
      match splitOnSlash cs with
      | [] => [[c]]
      | p :: ps => (c :: p) :: ps

/-- The components `pathlib` keeps: split on `/`, dropping empty pieces
and bare `.` pieces (`..` pieces are kept, as `pathlib` does). -/
def pathParts (s : String) : List String :=
  ((splitOnSlash s.data).map (fun p => String.mk p)).filter
    (fun q => q != "" && q != ".")

/-- `PurePath(s).name`: the final kept component, or the empty string. -/
def pathName (s : String) : String :=
  ((pathParts s).getLast?).getD ""

/-- Index of the last `.` in a character list, if any. -/
def lastDotPos (cs : List Char) : Option Nat :=
  match cs.reverse.findIdx? (fun c => c == '.') with
  | none => none
  | some r => some (cs.length - 1 - r)

/-- Python `PurePath.suffix` computed from a name: the substring from the
last dot, provided that dot is neither the first nor the last character. -/
def nameSuffix (name : String) : String :=
  match lastDotPos name.data with
  | none => ""
  | some i =>
    if 0 < i ∧ i < name.data.length - 1 then String.mk (name.data.drop i)
    else ""

/-- `PurePath(s).suffix` (the suffix of the path's name). -/
def pySuffix (s : String) : String := nameSuffix (pathName s)

/-- Python `str.lower` (ASCII fragment, which covers the MIME strings). -/
def pyLower (s : String) : String := String.mk (s.data.map Char.toLower)

/-- Python `str.replace` for a one-character pattern (the source only
replaces the patterns `" "` and `"Z"`). -/
def replaceChar (pat : Char) (repl : List Char) : List Char → List Char
  | [] => []
  | c :: cs =>
    if c = pat then repl ++ replaceChar pat repl cs
    else c :: replaceChar pat repl cs

/-- `s.replace(pat, repl)` for a one-character pattern `pat`. -/
def pyReplaceChar (s : String) (pat : Char) (repl : String) : String :=
  String.mk (replaceChar pat repl.data s.data)

/-- `pathlib` join of a directory with a bare name: joining with the empty
string leaves the path unchanged. -/
def joinName (n : String) : PyPath := if n = "" then [] else [n]

/-- Resolution of `..` and `.` components the way the operating system
does when a path is actually looked up (used to state what a returned
path refers to; the source itself never normalizes). -/
def normalizePath (p : PyPath) : PyPath :=
  p.foldl
    (fun acc c =>
      if c = "" ∨ c = "." then acc
      else if c = ".." then acc.dropLast
      else acc ++ [c])
    []

/-! ### `find_resource_paths` (src/joplin_to_paperless.py, lines 18-129) -/

/-- Attributes of one `<img ...>` tag match: the `src`, `type` and `alt`
attributes when present (the `src` value post `unquote`). -/
structure ImgTag where
  src : Option String
  type : Option String
  alt : Option String
deriving DecidableEq

/-- Attributes of one `<a ...>...</a>` tag match: the `href` and `type`
attributes when present, and the stripped inner text (empty when the
inner-text pattern did not match), `href` post `unquote`. -/
structure ATag where
  href : Option String
  type : Option String
  altText : String
deriving DecidableEq

/-- The `mime_to_ext` dictionary of the source (identical in the img-tag
and anchor-tag passes). -/
def mime_to_ext_table : List (String × String) :=
  [("image/jpeg", ".jpg"), ("image/jpg", ".jpg"), ("image/png", ".png"),
   ("image/gif", ".gif"), ("image/bmp", ".bmp"), ("image/tiff", ".tif"),
   ("image/webp", ".webp"), ("image/heic", ".heic"),
   ("application/pdf", ".pdf")]

/-- Lookup in `mime_to_ext` (`if mime_type in mime_to_ext`). -/
def mime_to_ext (m : String) : Option String :=
  mime_to_ext_table.lookup m

/-- `file_path.parent.parent / "_resources" / resource_name`. -/
def resolvedPath (base : PyPath) (resource_name : String) : PyPath :=
  base ++ ["_resources"] ++ joinName resource_name

/-- Intended suffix of an img-tag match (lines 34-58): the MIME type when
its attribute is present and maps to a known extension; with the attribute
present but unmapped, the target suffix; with no attribute, the alt text's
suffix when nonempty, else the target suffix. -/
def imgSuffix (name : String) (ty alt : Option String) : String :=
  let intended := pySuffix name
  match ty with
  | some mime =>
    match mime_to_ext (pyLower mime) with
    | some e => e
    | none => intended
  | none =>
    match alt with
    | some alt_text =>
      let alt_suffix := pySuffix alt_text
      if alt_suffix ≠ "" then alt_suffix else intended
    | none => intended

/-- One iteration of the img-tag loop (lines 24-62): resolve the target's
name under `_resources`, infer the suffix, append when the path exists
(no deduplication in this pass). -/
def imgPassStep (base : PyPath) (fs : PyPath → Bool)
    (acc : List (PyPath × String)) (tag : ImgTag) : List (PyPath × String) :=
  match tag.src with
  | none => acc
  | some name =>
    let resource_name := pathName name
    let intended_suffix := imgSuffix name tag.type tag.alt
    let path := resolvedPath base resource_name
    if fs path then acc ++ [(path, intended_suffix)] else acc

/-- Resource name and suffix of a markdown-link match (lines 69-79): the
alt text's suffix is consulted only when the target has none, and it is
then also appended to the looked-up resource name. -/
def mdLinkNameSuffix (alt_text name : String) : String × String :=
  let resource_name := pathName name
  let intended_suffix := pySuffix name
  if intended_suffix = "" ∧ alt_text ≠ "" then
    let alt_suffix := pySuffix alt_text
    if alt_suffix ≠ "" then (resource_name ++ alt_suffix, alt_suffix)
    else (resource_name, intended_suffix)
  else (resource_name, intended_suffix)

/-- One iteration of the markdown-link loop (lines 69-83): append when the
path exists and no previously collected entry has the same path. -/
def mdPassStep (base : PyPath) (fs : PyPath → Bool)
    (acc : List (PyPath × String)) (link : String × String) :
    List (PyPath × String) :=
  let ns := mdLinkNameSuffix link.1 link.2
  let path := resolvedPath base ns.1
  if fs path && !(acc.any (fun e => e.1 == path)) then acc ++ [(path, ns.2)]
  else acc

/-- Intended suffix of an anchor-tag match (lines 101-123): like the
img-tag pass, except that without a `type` attribute the alt text is
consulted only when the target suffix is not one of the protected
extensions. -/
def aSuffix (name : String) (ty : Option String) (alt_text : String) :
    String :=
  let intended := pySuffix name
  match ty with
  | some mime =>
    match mime_to_ext (pyLower mime) with
    | some e => e
    | none => intended
  | none =>
    if alt_text ≠ "" ∧ intended ∉ [".jpg", ".jpeg", ".png", ".pdf", ".tif"]
    then
      let alt_suffix := pySuffix alt_text
      if alt_suffix ≠ "" then alt_suffix else intended
    else intended

/-- One iteration of the anchor-tag loop (lines 87-127). -/
def aPassStep (base : PyPath) (fs : PyPath → Bool)
    (acc : List (PyPath × String)) (tag : ATag) : List (PyPath × String) :=
  match tag.href with
  | none => acc
  | some name =>
    let resource_name := pathName name
    let intended_suffix := aSuffix name tag.type tag.altText
    let path := resolvedPath base resource_name
    if fs path && !(acc.any (fun e => e.1 == path)) then
      acc ++ [(path, intended_suffix)]
    else acc

/-- `find_resource_paths` (lines 18-129).  `base` is
`file_path.parent.parent`, `fs` is the `Path.exists()` predicate; the
final `list(set(resource_paths))` is modelled by duplicate removal on
(path, extension) pairs (Python's set order is unspecified; every claim
below is stated up to membership). -/
def find_resource_paths (base : PyPath) (fs : PyPath → Bool)
    (imgTags : List ImgTag) (mdLinks : List (String × String))
    (aTags : List ATag) : List (PyPath × String) :=
  let pass1 := imgTags.foldl (imgPassStep base fs) []
  let pass2 := mdLinks.foldl (mdPassStep base fs) pass1
  let pass3 := aTags.foldl (aPassStep base fs) pass2
  pass3.dedup

example :
    find_resource_paths [] (fun p => p == ["_resources", "a.png"])
      [⟨some "a.png", none, some "b.pdf"⟩] [] []
      = [(["_resources", "a.png"], ".pdf")] := by decide

example : pathName ".." = ".." := by decide

example : pySuffix "x.tar.gz" = ".gz" := by decide

/-! ### `create_pdf_from_images` (src/joplin_to_paperless.py, lines 132-160) -/

/-- What `Image.open` does on one input path: succeeds, or raises
`IOError` (the only exception the source catches). -/
inductive ImageOpen where
  | opened
  | ioError
deriving DecidableEq

/-- Observable outcome of `create_pdf_from_images`: the per-image skip
warnings (in loop order), whether the final no-valid-images warning was
logged, and the pages written (`none` when no file is written). -/
structure CreatePdfResult where
  skipWarnings : List PyPath
  noValidWarning : Bool
  written : Option (List PyPath)
deriving DecidableEq

/-- The images surviving the open loop, in order (`pil_images`). -/
def surviving_images (image_paths : List (PyPath × ImageOpen)) :
    List PyPath :=
  (image_paths.filter (fun i => i.2 == ImageOpen.opened)).map Prod.fst

/-- The images skipped by the open loop, in order. -/
def skipped_images (image_paths : List (PyPath × ImageOpen)) :
    List PyPath :=
  (image_paths.filter (fun i => i.2 == ImageOpen.ioError)).map Prod.fst

/-- `create_pdf_from_images`: an empty input returns immediately (no log,
no file); otherwise unreadable images are skipped with a warning each, and
either the no-valid-images warning is logged (no file) or the survivors
are written as the PDF's pages. -/
def create_pdf_from_images (image_paths : List (PyPath × ImageOpen)) :
    CreatePdfResult :=
  if image_paths = [] then ⟨[], false, none⟩
  else
    let pil_images := surviving_images image_paths
    if pil_images = [] then ⟨skipped_images image_paths, true, none⟩
    else ⟨skipped_images image_paths, false, some pil_images⟩

/-! ### Front-matter timestamp (src/joplin_to_paperless.py, lines 193-201)

Model of the fragment of Python `datetime.fromisoformat` reached by the
source: `YYYY-MM-DD`, optionally followed by `THH:MM:SS`, optionally
followed by a `+HH:MM` or `-HH:MM` offset (the source has already turned
a space separator into `T` and a `Z` suffix into `+00:00`).  A parsed
value records the epoch seconds of its wall-clock fields and its UTC
offset when one was given.  `datetime.timestamp()` interprets a naive
value in the process's local timezone, an aware value by its own offset;
the local UTC offset is an explicit parameter of the model. -/

/-- Days from 1970-01-01 of a Gregorian date (civil-calendar algorithm,
for years since year 1, which covers every parseable timestamp here). -/
def daysFromCivil (y m d : Nat) : Nat :=
  let yAdj := if m ≤ 2 then y - 1 else y
  let era := yAdj / 400
  let yoe := yAdj - era * 400
  let mp := (m + 9) % 12
  let doy := (153 * mp + 2) / 5 + d - 1
  let doe := yoe * 365 + yoe / 4 - yoe / 100 + doy
  era * 146097 + doe - 719468

/-- Digits of a fixed-width numeric field. -/
def readNatDigits (cs : List Char) : Option Nat :=
  if cs ≠ [] ∧ cs.all Char.isDigit then
    some (cs.foldl (fun acc c => acc * 10 + (c.toNat - 48)) 0)
  else none

/-- The `YYYY-MM-DD` date part. -/
def parseDateChars : List Char → Option (Nat × Nat × Nat)
  | [y1, y2, y3, y4, s1, m1, m2, s2, d1, d2] =>
    if s1 = '-' ∧ s2 = '-' then
      match readNatDigits [y1, y2, y3, y4], readNatDigits [m1, m2],
          readNatDigits [d1, d2] with
      | some y, some m, some d =>
        if 1 ≤ m ∧ m ≤ 12 ∧ 1 ≤ d ∧ d ≤ 31 then some (y, m, d) else none
      | _, _, _ => none
    else none
  | _ => none

/-- The `HH:MM:SS` time part, as seconds into the day. -/
def parseHMSChars : List Char → Option Nat
  | [h1, h2, c1, m1, m2, c2, s1, s2] =>
    if c1 = ':' ∧ c2 = ':' then
      match readNatDigits [h1, h2], readNatDigits [m1, m2],
          readNatDigits [s1, s2] with
      | some h, some mi, some s =>
        if h < 24 ∧ mi < 60 ∧ s < 60 then some (3600 * h + 60 * mi + s)
        else none
      | _, _, _ => none
    else none
  | _ => none

/-- A `+HH:MM` or `-HH:MM` UTC offset, in seconds. -/
def parseOffsetChars : List Char → Option Int
  | [sg, h1, h2, cl, m1, m2] =>
    if cl = ':' ∧ (sg = '+' ∨ sg = '-') then
      match readNatDigits [h1, h2], readNatDigits [m1, m2] with
      | some h, some mi =>
        if h < 24 ∧ mi < 60 then
          let off : Int := 3600 * h + 60 * mi
          some (if sg = '-' then -off else off)
        else none
      | _, _ => none
    else none
  | _ => none

/-- A parsed datetime: epoch seconds of the wall-clock fields, plus the
UTC offset when the string carried one. -/
structure PyDatetime where
  epochNaive : Int
  utcOffset : Option Int
deriving DecidableEq

/-- `datetime.fromisoformat` on the shapes the source can feed it. -/
def fromisoformat (s : String) : Option PyDatetime :=
  match parseDateChars (s.data.take 10) with
  | none => none
  | some ymd =>
    let days : Int := daysFromCivil ymd.1 ymd.2.1 ymd.2.2
    match s.data.drop 10 with
    | [] => some ⟨86400 * days, none⟩
    | sep :: t =>
      if sep = 'T' then
        match parseHMSChars (t.take 8) with
        | none => none
        | some secs =>
          match t.drop 8 with
          | [] => some ⟨86400 * days + secs, none⟩
          | offChars =>
            match parseOffsetChars offChars with
            | none => none
            | some off => some ⟨86400 * days + secs, some off⟩
      else none

/-- `datetime.timestamp()`: an aware datetime subtracts its own offset, a
naive one is interpreted in the local timezone (offset `localOffset`
seconds east of UTC). -/
def pyTimestamp (localOffset : Int) (d : PyDatetime) : Int :=
  match d.utcOffset with
  | some off => d.epochNaive - off
  | none => d.epochNaive - localOffset

/-- Lines 196-199: `str(created).replace(" ", "T")`, then
`.replace("Z", "+00:00")`, then `fromisoformat(...).timestamp()`.
Returns `none` when parsing fails (the `ValueError` branch). -/
def parse_created (localOffset : Int) (created : String) : Option Int :=
  (fromisoformat
      (pyReplaceChar (pyReplaceChar created ' ' "T") 'Z' "+00:00")).map
    (pyTimestamp localOffset)

example : parse_created 0 "2023-05-01 10:00:00" = some 1682935200 := by
  decide

example : parse_created 7200 "2023-05-01 10:00:00Z" = some 1682935200 := by
  decide

/-! ### Per-note body of `process_joplin_export`
(src/joplin_to_paperless.py, lines 206-246) -/

/-- One observable effect of processing a note: a verbatim PDF copy, a
PDF synthesized from images, an `os.utime` call (the source sets access
and modification time to the same value), or the no-resources warning. -/
inductive OutputAction where
  | copyPdf (src : PyPath) (dst : PyPath)
  | createPdfImages (imgs : List PyPath) (dst : PyPath)
  | setFileTimes (dst : PyPath) (t : Int)
  | warnNoResources
deriving DecidableEq

/-- The guarded `os.utime` calls (`if created_time:` — Python falsiness
makes both `None` and a numeric value of exactly 0 skip the call). -/
def timeActs (created_time : Option Int) (p : PyPath) : List OutputAction :=
  match created_time with
  | some t => if t = 0 then [] else [OutputAction.setFileTimes p t]
  | none => []

/-- Line 210: `[p for p, ext in resource_data if ext.lower() == ".pdf"]`. -/
def pdf_files (resource_data : List (PyPath × String)) : List PyPath :=
  (resource_data.filter (fun e => pyLower e.2 == ".pdf")).map Prod.fst

/-- Lines 212-214. -/
def image_extensions : List String :=
  [".jpg", ".jpeg", ".png", ".bmp", ".gif", ".tif", ".tiff", ".webp",
   ".heic"]

/-- Lines 215-219. -/
def image_files (resource_data : List (PyPath × String)) : List PyPath :=
  (resource_data.filter
      (fun e => image_extensions.contains (pyLower e.2))).map Prod.fst

/-- The per-note body of `process_joplin_export` (lines 206-246), given
the note's extracted resource data, title and parsed creation time: the
sequence of observable actions.  A single PDF is copied to
`<title>.pdf`, several to `<title>_<i>.pdf`; images are used only when no
PDF reference exists; otherwise the warning is logged. -/
def process_note (output_dir : PyPath) (title : String)
    (created_time : Option Int) (resource_data : List (PyPath × String)) :
    List OutputAction :=
  let output_filepath := output_dir ++ [title ++ ".pdf"]
  match pdf_files resource_data with
  | [] =>
    if image_files resource_data = [] then [OutputAction.warnNoResources]
    else
      OutputAction.createPdfImages (image_files resource_data)
          output_filepath ::
        timeActs created_time output_filepath
  | [p] =>
    OutputAction.copyPdf p output_filepath ::
      timeActs created_time output_filepath
  | p :: q :: rest =>
    ((p :: q :: rest).enum.map
        (fun ia =>
          let dst := output_dir ++ [title ++ "_" ++ toString ia.1 ++ ".pdf"]
          OutputAction.copyPdf ia.2 dst :: timeActs created_time dst)).flatten

/-- Destination of the copy of PDF number `i` when a note has `n` PDF
references (lines 207-208 and 229-232). -/
def pdfDst (output_dir : PyPath) (title : String) (n i : Nat) : PyPath :=
  if n = 1 then output_dir ++ [title ++ ".pdf"]
  else output_dir ++ [title ++ "_" ++ toString i ++ ".pdf"]

example :
    process_note [] "t" (some 5)
      [(["a"], ".pdf"), (["b"], ".PDF"), (["c"], ".jpg")]
      = [OutputAction.copyPdf ["a"] ["t_0.pdf"],
         OutputAction.setFileTimes ["t_0.pdf"] 5,
         OutputAction.copyPdf ["b"] ["t_1.pdf"],
         OutputAction.setFileTimes ["t_1.pdf"] 5] := by decide

/-! ### `upload_pdf` and its driver (src/upload_to_paperless.py) -/

/-- What one `requests.post` attempt does: returns a response (status,
JSON body, text), raises `requests.RequestException`, or raises some
other exception (both `except` arms log and fall through to `None`). -/
inductive HttpAttempt where
  | response (status : Nat) (body : Int) (text : String)
  | requestException (msg : String)
  | otherException (msg : String)
deriving DecidableEq

/-- Log lines `upload_pdf` can emit. -/
inductive UploadLog where
  | infoUploaded (name : String) (docId : Int)
  | errorStatus (name : String) (status : Nat) (text : String)
  | errorException (name : String) (msg : String)
deriving DecidableEq

/-- `upload_pdf` (lines 22-58): status 201 or 200 returns the JSON body
as the document id; any other status logs an error and returns `None`;
an exception logs an error and returns `None`. -/
def upload_pdf (pdfName : String) (attempt : HttpAttempt) :
    Option Int × List UploadLog :=
  match attempt with
  | HttpAttempt.response status body text =>
    if status = 201 ∨ status = 200 then
      (some body, [UploadLog.infoUploaded pdfName body])
    else (none, [UploadLog.errorStatus pdfName status text])
  | HttpAttempt.requestException m =>
    (none, [UploadLog.errorException pdfName m])
  | HttpAttempt.otherException m =>
    (none, [UploadLog.errorException pdfName m])

/-- The upload loop of `main` (lines 87-95): every file in the folder is
attempted, unconditionally of earlier outcomes. -/
def uploadAll (batch : List (String × HttpAttempt)) : List (Option Int) :=
  batch.map (fun fa => (upload_pdf fa.1 fa.2).1)

/-! ### Helper lemmas -/

theorem mem_timeActs {a : OutputAction} {ct : Option Int} {p : PyPath}
    (h : a ∈ timeActs ct p) : ∃ t, a = OutputAction.setFileTimes p t := by
  cases ct with
  | none => simp [timeActs] at h
  | some t =>
    by_cases ht : t = 0
    · simp [timeActs, ht] at h
    · simp [timeActs, ht] at h
      exact ⟨t, h⟩

/-! ### Claim theorems -/

/-- C3: `upload_pdf` treats HTTP status 200 or 201 as success and returns
the parsed response body as the document id; any other status logs an
error and returns `None` without raising; a transport exception is caught,
logged, and yields `None`; and the driver loop attempts every file in the
batch regardless of the other files' outcomes. -/
theorem C3_upload_status_handling (name text m : String) (status : Nat)
    (body : Int) (pre post : List (String × HttpAttempt))
    (x : String × HttpAttempt) :
    ((status = 200 ∨ status = 201) →
      upload_pdf name (HttpAttempt.response status body text)
        = (some body, [UploadLog.infoUploaded name body]))
    ∧ (status ≠ 200 → status ≠ 201 →
      upload_pdf name (HttpAttempt.response status body text)
        = (none, [UploadLog.errorStatus name status text]))
    ∧ upload_pdf name (HttpAttempt.requestException m)
        = (none, [UploadLog.errorException name m])
    ∧ uploadAll (pre ++ x :: post)
        = uploadAll pre ++ (upload_pdf x.1 x.2).1 :: uploadAll post := by
  refine ⟨?_, ?_, rfl, ?_⟩
  · intro h
    have hc : status = 201 ∨ status = 200 := h.symm
    simp [upload_pdf, if_pos hc]
  · intro h1 h2
    have hc : ¬(status = 201 ∨ status = 200) := by tauto
    simp [upload_pdf, if_neg hc]
  · simp [uploadAll]

/-- Witness for C3 at concrete inputs: a 201 response yields the body as
id, a 500 response yields no id and an error log. -/
theorem C3_upload_status_handling_witness :
    upload_pdf "doc.pdf" (HttpAttempt.response 201 7 "ok")
      = (some 7, [UploadLog.infoUploaded "doc.pdf" 7])
    ∧ upload_pdf "doc.pdf" (HttpAttempt.response 500 0 "err")
      = (none, [UploadLog.errorStatus "doc.pdf" 500 "err"]) :=
  ⟨(C3_upload_status_handling "doc.pdf" "ok" "" 201 7 [] []
      ("", HttpAttempt.otherException "")).1 (Or.inr rfl),
   (C3_upload_status_handling "doc.pdf" "err" "" 500 0 [] []
      ("", HttpAttempt.otherException "")).2.1 (by decide) (by decide)⟩

theorem setFileTimes_not_mem_process_note_none (out : PyPath)
    (title : String) (rd : List (PyPath × String)) (p : PyPath) (t : Int) :
    OutputAction.setFileTimes p t ∉ process_note out title none rd := by
  intro h
  unfold process_note at h
  cases hpdf : pdf_files rd with
  | nil =>
    rw [hpdf] at h
    by_cases himg : image_files rd = [] <;> simp [himg, timeActs] at h
  | cons a tl =>
    cases tl with
    | nil => rw [hpdf] at h; simp [timeActs] at h
    | cons b tl2 =>
      rw [hpdf] at h
      simp only [List.mem_flatten, List.mem_map] at h
      obtain ⟨l, ⟨ia, _, rfl⟩, hmem⟩ := h
      simp [timeActs] at hmem

/-- C10: a parsed creation timestamp of exactly 0 (the Unix epoch) is
treated like no timestamp at all: the note is processed identically to
one with no recovered timestamp, and in particular no `os.utime` call is
made. -/
theorem C10_epoch_zero_skipped (out : PyPath) (title : String)
    (rd : List (PyPath × String)) :
    process_note out title (some 0) rd = process_note out title none rd
    ∧ ∀ p t, OutputAction.setFileTimes p t
        ∉ process_note out title (some 0) rd := by
  have htime : timeActs (some 0) = timeActs none :=
    funext fun p => by simp [timeActs]
  have heq : process_note out title (some 0) rd
      = process_note out title none rd := by
    unfold process_note
    rw [htime]
  exact ⟨heq, fun p t =>
    heq ▸ setFileTimes_not_mem_process_note_none out title rd p t⟩

/-- C8 counterexample: on an empty input list `create_pdf_from_images`
returns without writing a file but also without logging any warning,
contrary to the claim that an empty input logs a warning. -/
theorem C8_counterexample :
    (create_pdf_from_images []).written = none
    ∧ (create_pdf_from_images []).noValidWarning = false
    ∧ (create_pdf_from_images []).skipWarnings = [] := by
  refine ⟨by decide, by decide, by decide⟩

/-- C8 (amended): every image that raises on open is skipped with a
warning; a file is written exactly when some image survives; a nonempty
input with no survivor logs the no-valid-images warning; an empty input
is a silent no-op with no warning at all. -/
theorem C8_amended_skip_and_warn (imgs : List (PyPath × ImageOpen)) :
    (∀ p, (p, ImageOpen.ioError) ∈ imgs →
      p ∈ (create_pdf_from_images imgs).skipWarnings)
    ∧ ((create_pdf_from_images imgs).written = none
        ↔ surviving_images imgs = [])
    ∧ (imgs ≠ [] → surviving_images imgs = [] →
        (create_pdf_from_images imgs).noValidWarning = true)
    ∧ (imgs = [] → create_pdf_from_images imgs = ⟨[], false, none⟩)
    ∧ (surviving_images imgs ≠ [] →
        (create_pdf_from_images imgs).written
          = some (surviving_images imgs)) := by
  have hskip : ∀ p, (p, ImageOpen.ioError) ∈ imgs →
      p ∈ skipped_images imgs := by
    intro p hp
    simp only [skipped_images, List.mem_map, List.mem_filter]
    exact ⟨(p, ImageOpen.ioError), ⟨hp, rfl⟩, rfl⟩
  by_cases himgs : imgs = []
  · subst himgs
    refine ⟨?_, ?_, ?_, ?_, ?_⟩
    · intro p hp; simp at hp
    · simp [create_pdf_from_images, surviving_images]
    · intro h; exact absurd rfl h
    · intro _; rfl
    · intro h; exact absurd rfl h
  · by_cases hsur : surviving_images imgs = []
    · refine ⟨?_, ?_, ?_, ?_, ?_⟩
      · intro p hp
        simpa [create_pdf_from_images, himgs, hsur] using hskip p hp
      · simp [create_pdf_from_images, himgs, hsur]
      · intro _ _; simp [create_pdf_from_images, himgs, hsur]
      · intro h; exact absurd h himgs
      · intro h; exact absurd hsur h
    · refine ⟨?_, ?_, ?_, ?_, ?_⟩
      · intro p hp
        simpa [create_pdf_from_images, himgs, hsur] using hskip p hp
      · simp [create_pdf_from_images, himgs, hsur]
      · intro _ h; exact absurd h hsur
      · intro h; exact absurd h himgs
      · intro _; simp [create_pdf_from_images, himgs, hsur]

/-- Witness for C8 (amended) at a concrete input: one unreadable image is
skipped with a warning, nothing is written, and the final warning fires. -/
theorem C8_amended_witness :
    (["x.jpg"] : PyPath) ∈ (create_pdf_from_images
        [(["x.jpg"], ImageOpen.ioError)]).skipWarnings
    ∧ (create_pdf_from_images
        [(["x.jpg"], ImageOpen.ioError)]).noValidWarning = true :=
  ⟨(C8_amended_skip_and_warn [(["x.jpg"], ImageOpen.ioError)]).1 ["x.jpg"]
      (by decide),
   (C8_amended_skip_and_warn [(["x.jpg"], ImageOpen.ioError)]).2.2.1
      (by decide) (by decide)⟩

/-- C1 counterexample: an img tag with no `type` attribute whose target
`a.png` has an extension and whose alt text is `b.pdf` resolves to
`.pdf` — the alt text's extension overrides the target's extension,
contrary to the claimed precedence. -/
theorem C1_counterexample :
    find_resource_paths [] (fun p => p == ["_resources", "a.png"])
        [⟨some "a.png", none, some "b.pdf"⟩] [] []
      = [(["_resources", "a.png"], ".pdf")]
    ∧ pySuffix "a.png" = ".png"
    ∧ (".pdf" : String) ≠ ".png" :=
  ⟨by decide, by decide, by decide⟩

/-- C1 (amended): a MIME-type attribute that maps to a known extension
wins in the img-tag and anchor-tag passes, and when the attribute is
present but unknown the target's extension is kept and the alt text is
never consulted.  Without the attribute the passes differ: markdown links
keep a nonempty target extension and use the alt text only when the
target has none; img tags use a nonempty alt-text extension even when the
target has one; anchor tags do so unless the target extension is one of
`.jpg`, `.jpeg`, `.png`, `.pdf`, `.tif`. -/
theorem C1_amended_precedence (name mime alt e : String)
    (altO : Option String) :
    (mime_to_ext (pyLower mime) = some e →
      imgSuffix name (some mime) altO = e ∧ aSuffix name (some mime) alt = e)
    ∧ (mime_to_ext (pyLower mime) = none →
      imgSuffix name (some mime) altO = pySuffix name
      ∧ aSuffix name (some mime) alt = pySuffix name)
    ∧ (pySuffix alt ≠ "" → imgSuffix name none (some alt) = pySuffix alt)
    ∧ (pySuffix alt = "" → imgSuffix name none (some alt) = pySuffix name)
    ∧ imgSuffix name none none = pySuffix name
    ∧ (pySuffix name ≠ "" → (mdLinkNameSuffix alt name).2 = pySuffix name)
    ∧ (pySuffix name = "" → alt ≠ "" → pySuffix alt ≠ "" →
        (mdLinkNameSuffix alt name).2 = pySuffix alt)
    ∧ (pySuffix name ∈ [".jpg", ".jpeg", ".png", ".pdf", ".tif"] →
        aSuffix name none alt = pySuffix name)
    ∧ (pySuffix name ∉ [".jpg", ".jpeg", ".png", ".pdf", ".tif"] →
        alt ≠ "" → pySuffix alt ≠ "" → aSuffix name none alt = pySuffix alt)
    := by
  refine ⟨?_, ?_, ?_, ?_, rfl, ?_, ?_, ?_, ?_⟩
  · intro h
    exact ⟨by simp [imgSuffix, h], by simp [aSuffix, h]⟩
  · intro h
    exact ⟨by simp [imgSuffix, h], by simp [aSuffix, h]⟩
  · intro h
    simp [imgSuffix, h]
  · intro h
    simp [imgSuffix, h]
  · intro h
    simp [mdLinkNameSuffix, h]
  · intro h1 h2 h3
    simp [mdLinkNameSuffix, h1, h2, h3]
  · intro h
    have hneg : ¬(alt ≠ "" ∧ pySuffix name ∉ [".jpg", ".jpeg", ".png",
        ".pdf", ".tif"]) := fun hc => hc.2 h
    simp only [aSuffix]
    rw [if_neg hneg]
  · intro h1 h2 h3
    simp only [aSuffix]
    rw [if_pos ⟨h2, h1⟩, if_pos h3]

/-- Witness for C1 (amended) at concrete inputs: the MIME attribute wins
on an img tag; with no MIME attribute the alt text's extension overrides
the target's on an img tag; a markdown link keeps the target's extension. -/
theorem C1_amended_witness :
    imgSuffix "a.png" (some "application/pdf") none = ".pdf"
    ∧ imgSuffix "a.png" none (some "b.pdf") = ".pdf"
    ∧ (mdLinkNameSuffix "b.pdf" "a.png").2 = ".png" := by
  refine ⟨?_, ?_, ?_⟩
  · exact ((C1_amended_precedence "a.png" "application/pdf" "" ".pdf"
      none).1 (by decide)).1
  · have h := (C1_amended_precedence "a.png" "x" "b.pdf" "" none).2.2.1
      (by decide)
    simpa using h
  · have h := (C1_amended_precedence "a.png" "x" "b.pdf" "" none).2.2.2.2.2.1
      (by decide)
    simpa using h

/-- C4 counterexample: with a local UTC offset of +02:00 (7200 s), a note
with front matter `created: 2023-05-01 10:00:00` and one PDF gets its
file times set to 1682928000, not to the UTC instant
2023-05-01T10:00:00+00:00 = 1682935200 — the naive timestamp is
interpreted in the local timezone, not as UTC. -/
theorem C4_counterexample :
    process_note [] "T" (parse_created 7200 "2023-05-01 10:00:00")
        [(["r"], ".pdf")]
      = [OutputAction.copyPdf ["r"] ["T.pdf"],
         OutputAction.setFileTimes ["T.pdf"] 1682928000]
    ∧ (1682928000 : Int) ≠ 1682935200 :=
  ⟨by decide, by decide⟩

/-- C4 (amended): the naive timestamp `2023-05-01 10:00:00` is
interpreted in the machine's local timezone — with local offset `off`
seconds the parsed value is 1682935200 − `off`, which equals the UTC
instant exactly when `off` = 0; with a `Z` suffix (rewritten to +00:00)
the value is the UTC instant for every local offset; and the exporter
sets the output file's times to the parsed value. -/
theorem C4_amended_local_timezone (off : Int) :
    parse_created off "2023-05-01 10:00:00" = some (1682935200 - off)
    ∧ parse_created off "2023-05-01 10:00:00Z" = some 1682935200
    ∧ ((1682935200 : Int) - off ≠ 0 →
        process_note [] "T" (parse_created off "2023-05-01 10:00:00")
            [(["r"], ".pdf")]
          = [OutputAction.copyPdf ["r"] ["T.pdf"],
             OutputAction.setFileTimes ["T.pdf"] (1682935200 - off)]) := by
  have h1 : fromisoformat (pyReplaceChar
      (pyReplaceChar "2023-05-01 10:00:00" ' ' "T") 'Z' "+00:00")
      = some ⟨1682935200, none⟩ := by decide
  have h2 : fromisoformat (pyReplaceChar
      (pyReplaceChar "2023-05-01 10:00:00Z" ' ' "T") 'Z' "+00:00")
      = some ⟨1682935200, some 0⟩ := by decide
  have hp : parse_created off "2023-05-01 10:00:00"
      = some (1682935200 - off) := by
    unfold parse_created
    rw [h1]
    rfl
  refine ⟨hp, ?_, ?_⟩
  · unfold parse_created
    rw [h2]
    simp [pyTimestamp]
  · intro h
    rw [hp]
    have hpdf : pdf_files [(["r"], ".pdf")] = [["r"]] := by decide
    unfold process_note
    rw [hpdf]
    simp [timeActs, h]

/-- Witness for C4 (amended) at the concrete offset +02:00. -/
theorem C4_amended_witness :
    parse_created 7200 "2023-05-01 10:00:00" = some (1682935200 - 7200)
    ∧ process_note [] "T" (parse_created 7200 "2023-05-01 10:00:00")
        [(["r"], ".pdf")]
      = [OutputAction.copyPdf ["r"] ["T.pdf"],
         OutputAction.setFileTimes ["T.pdf"] (1682935200 - 7200)] :=
  ⟨(C4_amended_local_timezone 7200).1,
   (C4_amended_local_timezone 7200).2.2 (by decide)⟩

/-! ### Membership helpers for the three extraction passes -/

theorem mem_imgPassStep (base : PyPath) (fs : PyPath → Bool)
    (acc : List (PyPath × String)) (tag : ImgTag) (e : PyPath × String)
    (h : e ∈ acc) : e ∈ imgPassStep base fs acc tag := by
  unfold imgPassStep
  cases tag.src with
  | none => exact h
  | some name =>
    dsimp only
    split
    · exact List.mem_append_left _ h
    · exact h

theorem mem_mdPassStep (base : PyPath) (fs : PyPath → Bool)
    (acc : List (PyPath × String)) (link : String × String)
    (e : PyPath × String) (h : e ∈ acc) : e ∈ mdPassStep base fs acc link := by
  unfold mdPassStep
  dsimp only
  split
  · exact List.mem_append_left _ h
  · exact h

theorem mem_aPassStep (base : PyPath) (fs : PyPath → Bool)
    (acc : List (PyPath × String)) (tag : ATag) (e : PyPath × String)
    (h : e ∈ acc) : e ∈ aPassStep base fs acc tag := by
  unfold aPassStep
  cases tag.href with
  | none => exact h
  | some name =>
    dsimp only
    split
    · exact List.mem_append_left _ h
    · exact h

theorem mem_foldl_of_mem {β : Type} {step : List (PyPath × String) → β →
    List (PyPath × String)}
    (hstep : ∀ acc x e, e ∈ acc → e ∈ step acc x) :
    ∀ (l : List β) (acc : List (PyPath × String)) (e : PyPath × String),
      e ∈ acc → e ∈ l.foldl step acc := by
  intro l
  induction l with
  | nil => intro acc e h; simpa using h
  | cons x xs ih => intro acc e h; exact ih _ _ (hstep _ _ _ h)

theorem imgPass_mem_foldl (base : PyPath) (fs : PyPath → Bool) :
    ∀ (imgs : List ImgTag) (acc : List (PyPath × String)) (tag : ImgTag)
      (name : String), tag ∈ imgs → tag.src = some name →
      fs (resolvedPath base (pathName name)) = true →
      (resolvedPath base (pathName name), imgSuffix name tag.type tag.alt)
        ∈ imgs.foldl (imgPassStep base fs) acc := by
  intro imgs
  induction imgs with
  | nil => intro acc tag name htag; simp at htag
  | cons t ts ih =>
    intro acc tag name htag hsrc hfs
    rcases List.mem_cons.mp htag with rfl | htag
    · have hstep : (resolvedPath base (pathName name),
          imgSuffix name tag.type tag.alt) ∈ imgPassStep base fs acc tag := by
        unfold imgPassStep
        rw [hsrc]
        dsimp only
        rw [if_pos hfs]
        exact List.mem_append_right _ (List.mem_singleton.mpr rfl)
      exact mem_foldl_of_mem (mem_imgPassStep base fs) ts _ _ hstep
    · exact ih _ tag name htag hsrc hfs

/-- C7: for any note referencing a resource via an img tag whose `type`
attribute (case-insensitively) is `application/pdf`, the entry collected
for that tag has extension `.pdf`, regardless of the extension in the
`src` target itself, and it appears in the output of
`find_resource_paths` whenever the resolved path exists. -/
theorem C7_img_type_application_pdf (base : PyPath) (fs : PyPath → Bool)
    (imgs : List ImgTag) (mds : List (String × String)) (ats : List ATag)
    (tag : ImgTag) (name ty : String)
    (htag : tag ∈ imgs) (hsrc : tag.src = some name)
    (hty : tag.type = some ty) (hmime : pyLower ty = "application/pdf")
    (hfs : fs (resolvedPath base (pathName name)) = true) :
    imgSuffix name tag.type tag.alt = ".pdf"
    ∧ (resolvedPath base (pathName name), ".pdf")
        ∈ find_resource_paths base fs imgs mds ats := by
  have hlook : mime_to_ext "application/pdf" = some ".pdf" := by decide
  have hsuf : imgSuffix name tag.type tag.alt = ".pdf" := by
    rw [hty]
    simp only [imgSuffix, hmime, hlook]
  refine ⟨hsuf, ?_⟩
  unfold find_resource_paths
  apply List.mem_dedup.mpr
  apply mem_foldl_of_mem (mem_aPassStep base fs) ats
  apply mem_foldl_of_mem (mem_mdPassStep base fs) mds
  have h := imgPass_mem_foldl base fs imgs [] tag name htag hsrc hfs
  rw [hsuf] at h
  exact h

/-- Witness for C7 at a concrete input: an img tag whose target is
`r.bin` with `type="application/pdf"` yields a `.pdf` entry. -/
theorem C7_witness :
    (((["_resources", "r.bin"] : PyPath), ".pdf")
        ∈ find_resource_paths []
          (fun p => p == ["_resources", "r.bin"])
          [⟨some "r.bin", some "application/pdf", none⟩] [] []) := by
  have h := C7_img_type_application_pdf []
    (fun p => p == ["_resources", "r.bin"])
    [⟨some "r.bin", some "application/pdf", none⟩] [] []
    ⟨some "r.bin", some "application/pdf", none⟩ "r.bin" "application/pdf"
    (by decide) (by decide) (by decide) (by decide) (by decide)
  simpa using h.2

/-- C2: when a note's resource set contains PDF references, each of them
is copied verbatim — to `<title>.pdf` for a single PDF, to
`<title>_<i>.pdf` indexed by position for several — no PDF is synthesized
from the note's images, and no warning fires; images are assembled into a
PDF only when no PDF reference exists; with neither PDFs nor images the
note produces exactly the warning and no output file. -/
theorem C2_pdf_priority (out : PyPath) (title : String) (ct : Option Int)
    (rd : List (PyPath × String)) :
    (pdf_files rd ≠ [] →
      (∀ imgs dst, OutputAction.createPdfImages imgs dst
          ∉ process_note out title ct rd)
      ∧ OutputAction.warnNoResources ∉ process_note out title ct rd
      ∧ ∀ i, (hi : i < (pdf_files rd).length) →
          OutputAction.copyPdf ((pdf_files rd).get ⟨i, hi⟩)
              (pdfDst out title (pdf_files rd).length i)
            ∈ process_note out title ct rd)
    ∧ (pdf_files rd = [] → image_files rd ≠ [] →
        OutputAction.createPdfImages (image_files rd)
            (out ++ [title ++ ".pdf"]) ∈ process_note out title ct rd)
    ∧ (pdf_files rd = [] → image_files rd = [] →
        process_note out title ct rd = [OutputAction.warnNoResources]) := by
  refine ⟨?_, ?_, ?_⟩
  · intro hpdf
    cases hp : pdf_files rd with
    | nil => exact absurd hp hpdf
    | cons a tl =>
      cases tl with
      | nil =>
        have hproc : process_note out title ct rd
            = OutputAction.copyPdf a (out ++ [title ++ ".pdf"]) ::
                timeActs ct (out ++ [title ++ ".pdf"]) := by
          unfold process_note
          rw [hp]
        refine ⟨?_, ?_, ?_⟩
        · intro imgs dst hmem
          rw [hproc] at hmem
          rcases List.mem_cons.mp hmem with h | h
          · exact OutputAction.noConfusion h
          · obtain ⟨t, ht⟩ := mem_timeActs h
            exact OutputAction.noConfusion ht
        · intro hmem
          rw [hproc] at hmem
          rcases List.mem_cons.mp hmem with h | h
          · exact OutputAction.noConfusion h
          · obtain ⟨t, ht⟩ := mem_timeActs h
            exact OutputAction.noConfusion ht
        · intro i hi
          have h0 : i = 0 := Nat.lt_one_iff.mp (by simpa using hi)
          subst h0
          rw [hproc]
          simp [pdfDst]
      | cons b tl2 =>
        have hproc : process_note out title ct rd
            = ((a :: b :: tl2).enum.map
                (fun ia =>
                  let dst := out ++ [title ++ "_" ++ toString ia.1 ++
                    ".pdf"]
                  OutputAction.copyPdf ia.2 dst ::
                    timeActs ct dst)).flatten := by
          unfold process_note
          rw [hp]
        have hblock : ∀ a', a' ∈ process_note out title ct rd →
            (∃ p dst, a' = OutputAction.copyPdf p dst)
            ∨ ∃ p t, a' = OutputAction.setFileTimes p t := by
          intro a' hmem
          rw [hproc] at hmem
          simp only [List.mem_flatten, List.mem_map] at hmem
          obtain ⟨l, ⟨ia, _, rfl⟩, hmem⟩ := hmem
          rcases List.mem_cons.mp hmem with h | h
          · exact Or.inl ⟨ia.2, _, h⟩
          · obtain ⟨t, ht⟩ := mem_timeActs h
            exact Or.inr ⟨_, t, ht⟩
        refine ⟨?_, ?_, ?_⟩
        · intro imgs dst hmem
          rcases hblock _ hmem with ⟨_, _, h⟩ | ⟨_, _, h⟩
          · exact OutputAction.noConfusion h
          · exact OutputAction.noConfusion h
        · intro hmem
          rcases hblock _ hmem with ⟨_, _, h⟩ | ⟨_, _, h⟩
          · exact OutputAction.noConfusion h
          · exact OutputAction.noConfusion h
        · intro i hi
          rw [hproc]
          simp only [List.mem_flatten, List.mem_map]
          refine ⟨OutputAction.copyPdf ((a :: b :: tl2).get ⟨i, hi⟩)
              (out ++ [title ++ "_" ++ toString i ++ ".pdf"]) ::
              timeActs ct (out ++ [title ++ "_" ++ toString i ++ ".pdf"]),
            ⟨(i, (a :: b :: tl2).get ⟨i, hi⟩), ?_, rfl⟩, ?_⟩
          · have hlen : i < (a :: b :: tl2).enum.length := by
              simpa using hi
            have hget : (a :: b :: tl2).enum.get ⟨i, hlen⟩
                = (i, (a :: b :: tl2).get ⟨i, hi⟩) := by
              simp only [List.get_eq_getElem, List.enum_eq_enumFrom,
                List.getElem_enumFrom, Nat.zero_add]
            rw [← hget]
            exact List.get_mem _ _ _
          · have hne : (a :: b :: tl2).length ≠ 1 := by
              simp
            simp only [pdfDst, if_neg hne]
            exact List.mem_cons_self _ _
  · intro hpdf himg
    unfold process_note
    rw [hpdf]
    simp [himg]
  · intro hpdf himg
    unfold process_note
    rw [hpdf]
    simp [himg]

/-- Witness for C2 at concrete inputs: a note with two PDFs yields the
first copy and no warning; a note with nothing yields only the warning. -/
theorem C2_pdf_priority_witness :
    OutputAction.warnNoResources
      ∉ process_note [] "t" none [(["a"], ".pdf"), (["b"], ".pdf")]
    ∧ process_note [] "t" none ([] : List (PyPath × String))
      = [OutputAction.warnNoResources] :=
  ⟨((C2_pdf_priority [] "t" none [(["a"], ".pdf"), (["b"], ".pdf")]).1
      (by decide)).2.1,
   (C2_pdf_priority [] "t" none []).2.2 (by decide) (by decide)⟩

/-- C6 counterexample: two distinct notes with the same title `t`, each
with two PDF references, both write `t_0.pdf` and `t_1.pdf` — the second
note's copies land on exactly the paths the first note wrote, so its
output IS overwritten, contrary to the claim. -/
theorem C6_counterexample :
    process_note [] "t" none [(["a0"], ".pdf"), (["a1"], ".pdf")]
      = [OutputAction.copyPdf ["a0"] ["t_0.pdf"],
         OutputAction.copyPdf ["a1"] ["t_1.pdf"]]
    ∧ process_note [] "t" none [(["b0"], ".pdf"), (["b1"], ".pdf")]
      = [OutputAction.copyPdf ["b0"] ["t_0.pdf"],
         OutputAction.copyPdf ["b1"] ["t_1.pdf"]]
    ∧ (["a0"] : PyPath) ≠ ["b0"] :=
  ⟨by decide, by decide, by decide⟩

/-- Destination of an action that writes an output file. -/
def writeDest : OutputAction → Option PyPath
  | OutputAction.copyPdf _ dst => some dst
  | OutputAction.createPdfImages _ dst => some dst
  | OutputAction.setFileTimes _ _ => none
  | OutputAction.warnNoResources => none

/-- The output paths a note's processing writes, in order. -/
def noteWriteDests (out : PyPath) (title : String) (ct : Option Int)
    (rd : List (PyPath × String)) : List PyPath :=
  (process_note out title ct rd).filterMap writeDest

theorem filterMap_writeDest_timeActs (ct : Option Int) (p : PyPath) :
    (timeActs ct p).filterMap writeDest = [] := by
  cases ct with
  | none => rfl
  | some t =>
    by_cases ht : t = 0 <;> simp [timeActs, ht, writeDest]

theorem flatten_map_singleton {α β : Type} (g : α → β) :
    ∀ l : List α, (l.map (fun x => [g x])).flatten = l.map g := by
  intro l
  induction l with
  | nil => rfl
  | cons x xs ih => simp [ih]

/-- The write destinations of a note with at least one PDF reference
depend only on the output directory, the title and the number of PDFs. -/
theorem noteWriteDests_pdfs (out : PyPath) (title : String)
    (ct : Option Int) (rd : List (PyPath × String))
    (h : pdf_files rd ≠ []) :
    noteWriteDests out title ct rd =
      if (pdf_files rd).length = 1 then [out ++ [title ++ ".pdf"]]
      else (List.range (pdf_files rd).length).map
        (fun i => out ++ [title ++ "_" ++ toString i ++ ".pdf"]) := by
  cases hp : pdf_files rd with
  | nil => exact absurd hp h
  | cons a tl =>
    cases tl with
    | nil =>
      unfold noteWriteDests process_note
      rw [hp]
      simp [writeDest, filterMap_writeDest_timeActs]
    | cons b tl2 =>
      unfold noteWriteDests process_note
      rw [hp]
      have hblocks : ∀ ia : Nat × PyPath,
          (OutputAction.copyPdf ia.2
              (out ++ [title ++ "_" ++ toString ia.1 ++ ".pdf"]) ::
            timeActs ct (out ++ [title ++ "_" ++ toString ia.1 ++
              ".pdf"])).filterMap writeDest
          = [out ++ [title ++ "_" ++ toString ia.1 ++ ".pdf"]] := by
        intro ia
        simp [writeDest, filterMap_writeDest_timeActs]
      simp only [List.filterMap_flatten, List.map_map]
      have hne : (a :: b :: tl2).length ≠ 1 := by simp
      rw [if_neg hne]
      have hcomp : (List.filterMap writeDest ∘ fun ia : Nat × PyPath =>
          OutputAction.copyPdf ia.2
              (out ++ [title ++ "_" ++ toString ia.1 ++ ".pdf"]) ::
            timeActs ct (out ++ [title ++ "_" ++ toString ia.1 ++ ".pdf"]))
          = fun ia : Nat × PyPath =>
            [out ++ [title ++ "_" ++ toString ia.1 ++ ".pdf"]] :=
        funext fun ia => hblocks ia
      rw [hcomp, flatten_map_singleton
        (fun ia : Nat × PyPath =>
          out ++ [title ++ "_" ++ toString ia.1 ++ ".pdf"])]
      have hmm : ((a :: b :: tl2).enum.map Prod.fst).map
          (fun i : Nat => out ++ [title ++ "_" ++ toString i ++ ".pdf"])
          = (a :: b :: tl2).enum.map
            (fun ia : Nat × PyPath =>
              out ++ [title ++ "_" ++ toString ia.1 ++ ".pdf"]) := by
        rw [List.map_map]
        rfl
      rw [← hmm, List.enum_eq_enumFrom, List.enumFrom_map_fst,
        ← List.range_eq_range']

/-- C6 (amended): output paths depend only on the output directory, the
title and each PDF's index — within one note with `n` PDFs the copies go
to `title_0.pdf` … `title_(n−1).pdf`, but any two notes with the same
title and the same number of PDF references write exactly the same list
of paths, so the later-processed note overwrites the earlier one's files
rather than receiving distinct paths. -/
theorem C6_amended_title_collision (out : PyPath) (title : String)
    (ct1 ct2 : Option Int) (rdA rdB : List (PyPath × String))
    (hA : pdf_files rdA ≠ [])
    (hlen : (pdf_files rdA).length = (pdf_files rdB).length) :
    noteWriteDests out title ct1 rdA = noteWriteDests out title ct2 rdB := by
  have hB : pdf_files rdB ≠ [] := by
    intro hnil
    rw [hnil] at hlen
    exact hA (List.length_eq_zero.mp (by simpa using hlen))
  rw [noteWriteDests_pdfs out title ct1 rdA hA,
    noteWriteDests_pdfs out title ct2 rdB hB, hlen]

/-- Witness for C6 (amended): the two colliding notes of the
counterexample indeed write identical path lists. -/
theorem C6_amended_witness :
    noteWriteDests [] "t" none [(["a0"], ".pdf"), (["a1"], ".pdf")]
      = noteWriteDests [] "t" none [(["b0"], ".pdf"), (["b1"], ".pdf")] :=
  C6_amended_title_collision [] "t" none none
    [(["a0"], ".pdf"), (["a1"], ".pdf")] [(["b0"], ".pdf"), (["b1"], ".pdf")]
    (by decide) (by decide)

/-- C5 counterexample: two img tags with the same `src` but different
`type` attributes yield two entries for the same resolved path (with
extensions `.png` and `.pdf`), so the result is not deduplicated by path:
the img-tag pass never deduplicates and the final `list(set(...))`
removes only equal (path, extension) pairs. -/
theorem C5_counterexample :
    find_resource_paths [] (fun p => p == ["_resources", "r.bin"])
        [⟨some "r.bin", some "image/png", none⟩,
         ⟨some "r.bin", some "application/pdf", none⟩] [] []
      = [(["_resources", "r.bin"], ".png"),
         (["_resources", "r.bin"], ".pdf")]
    ∧ ¬ ((find_resource_paths [] (fun p => p == ["_resources", "r.bin"])
        [⟨some "r.bin", some "image/png", none⟩,
         ⟨some "r.bin", some "application/pdf", none⟩] [] []).map
          Prod.fst).Nodup :=
  ⟨by decide, by decide⟩

theorem mdPassStep_pairwise (base : PyPath) (fs : PyPath → Bool)
    (acc : List (PyPath × String)) (link : String × String)
    (h : acc.Pairwise (fun a b => a.1 ≠ b.1)) :
    (mdPassStep base fs acc link).Pairwise (fun a b => a.1 ≠ b.1) := by
  unfold mdPassStep
  dsimp only
  split
  next hcond =>
    rw [List.pairwise_append]
    refine ⟨h, List.pairwise_singleton _ _, ?_⟩
    intro x hx y hy
    obtain ⟨-, hnot⟩ := Bool.and_eq_true_iff.mp hcond
    rw [Bool.not_eq_true', List.any_eq_false] at hnot
    have hx1 := hnot x hx
    simp only [List.mem_singleton] at hy
    subst hy
    simpa using hx1
  next => exact h

theorem aPassStep_pairwise (base : PyPath) (fs : PyPath → Bool)
    (acc : List (PyPath × String)) (tag : ATag)
    (h : acc.Pairwise (fun a b => a.1 ≠ b.1)) :
    (aPassStep base fs acc tag).Pairwise (fun a b => a.1 ≠ b.1) := by
  unfold aPassStep
  cases tag.href with
  | none => exact h
  | some name =>
    dsimp only
    split
    next hcond =>
      rw [List.pairwise_append]
      refine ⟨h, List.pairwise_singleton _ _, ?_⟩
      intro x hx y hy
      obtain ⟨-, hnot⟩ := Bool.and_eq_true_iff.mp hcond
      rw [Bool.not_eq_true', List.any_eq_false] at hnot
      have hx1 := hnot x hx
      simp only [List.mem_singleton] at hy
      subst hy
      simpa using hx1
    next => exact h

theorem foldl_mdPass_pairwise (base : PyPath) (fs : PyPath → Bool) :
    ∀ (mds : List (String × String)) (acc : List (PyPath × String)),
      acc.Pairwise (fun a b => a.1 ≠ b.1) →
      (mds.foldl (mdPassStep base fs) acc).Pairwise (fun a b => a.1 ≠ b.1)
    := by
  intro mds
  induction mds with
  | nil => intro acc h; simpa using h
  | cons x xs ih =>
    intro acc h
    exact ih _ (mdPassStep_pairwise base fs acc x h)

theorem foldl_aPass_pairwise (base : PyPath) (fs : PyPath → Bool) :
    ∀ (ats : List ATag) (acc : List (PyPath × String)),
      acc.Pairwise (fun a b => a.1 ≠ b.1) →
      (ats.foldl (aPassStep base fs) acc).Pairwise (fun a b => a.1 ≠ b.1)
    := by
  intro ats
  induction ats with
  | nil => intro acc h; simpa using h
  | cons x xs ih =>
    intro acc h
    exact ih _ (aPassStep_pairwise base fs acc x h)

/-- C5 (amended): the returned list never contains two equal
(path, extension) pairs — the dedup is by pair, not by path — and the
markdown/anchor passes do skip a path that was already collected, so
with no img-tag matches the result has at most one entry per path; the
img-tag pass, however, can contribute several entries for one path with
different extensions. -/
theorem C5_amended_dedup_by_pair (base : PyPath) (fs : PyPath → Bool)
    (imgs : List ImgTag) (mds : List (String × String)) (ats : List ATag) :
    (find_resource_paths base fs imgs mds ats).Nodup
    ∧ (imgs = [] →
        (find_resource_paths base fs imgs mds ats).Pairwise
          (fun a b => a.1 ≠ b.1)) := by
  constructor
  · exact List.nodup_dedup _
  · intro himgs
    subst himgs
    unfold find_resource_paths
    apply List.Pairwise.sublist (List.dedup_sublist _)
    apply foldl_aPass_pairwise
    apply foldl_mdPass_pairwise
    simp

/-- Witness for C5 (amended): with no img tags and two markdown links to
the same target, the concrete result is pairwise distinct in its paths. -/
theorem C5_amended_witness :
    (find_resource_paths [] (fun p => p == ["_resources", "r.pdf"]) []
        [("x", "r.pdf"), ("y", "r.pdf")] []).Pairwise
      (fun a b => a.1 ≠ b.1) :=
  (C5_amended_dedup_by_pair [] (fun p => p == ["_resources", "r.pdf"]) []
    [("x", "r.pdf"), ("y", "r.pdf")] []).2 rfl

/-! ### Shape of the paths returned by `find_resource_paths` -/

theorem no_slash_of_mem_splitOnSlash :
    ∀ (cs : List Char) (p : List Char), p ∈ splitOnSlash cs → '/' ∉ p := by
  intro cs
  induction cs with
  | nil =>
    intro p hp
    simp [splitOnSlash] at hp
    simp [hp]
  | cons c cs ih =>
    intro p hp
    unfold splitOnSlash at hp
    by_cases hc : c = '/'
    · rw [if_pos hc] at hp
      rcases List.mem_cons.mp hp with rfl | hp
      · simp
      · exact ih p hp
    · rw [if_neg hc] at hp
      cases hsplit : splitOnSlash cs with
      | nil =>
        rw [hsplit] at hp
        simp at hp
        subst hp
        intro hmem
        simp at hmem
        exact hc hmem.symm
      | cons q qs =>
        rw [hsplit] at hp
        rcases List.mem_cons.mp hp with rfl | hp
        · intro hmem
          rcases List.mem_cons.mp hmem with h | h
          · exact hc h.symm
          · exact ih q (hsplit ▸ List.mem_cons_self q qs) h
        · exact ih p (hsplit ▸ List.mem_cons.mpr (Or.inr hp))

theorem pathName_no_slash (s : String) : '/' ∉ (pathName s).data := by
  unfold pathName
  cases hlast : (pathParts s).getLast? with
  | none => simp
  | some q =>
    have hq : q ∈ pathParts s := List.mem_of_getLast?_eq_some hlast
    unfold pathParts at hq
    have hq2 := List.mem_of_mem_filter hq
    obtain ⟨p, hp, rfl⟩ := List.mem_map.mp hq2
    simpa using no_slash_of_mem_splitOnSlash s.data p hp

theorem nameSuffix_data_subset (name : String) :
    (nameSuffix name).data ⊆ name.data := by
  unfold nameSuffix
  cases lastDotPos name.data with
  | none => simp
  | some i =>
    dsimp only
    split
    · simpa using List.drop_subset i name.data
    · simp

theorem pySuffix_no_slash (s : String) : '/' ∉ (pySuffix s).data :=
  fun h => pathName_no_slash s (nameSuffix_data_subset (pathName s) h)

theorem mdLinkNameSuffix_fst_no_slash (alt_text name : String) :
    '/' ∉ (mdLinkNameSuffix alt_text name).1.data := by
  unfold mdLinkNameSuffix
  dsimp only
  split
  · split
    · intro h
      rw [String.data_append] at h
      rcases List.mem_append.mp h with h | h
      · exact pathName_no_slash name h
      · exact pySuffix_no_slash alt_text h
    · exact pathName_no_slash name
  · exact pathName_no_slash name

/-- The containment invariant of every collected entry: it passed the
existence filter and its path is `base/_resources/<n>` for a single
separator-free name component `n`. -/
def EntryOK (base : PyPath) (fs : PyPath → Bool) (e : PyPath × String) :
    Prop :=
  fs e.1 = true ∧ ∃ n, e.1 = resolvedPath base n ∧ '/' ∉ n.data

theorem imgPassStep_entryOK (base : PyPath) (fs : PyPath → Bool)
    (acc : List (PyPath × String)) (tag : ImgTag)
    (h : ∀ e ∈ acc, EntryOK base fs e) :
    ∀ e ∈ imgPassStep base fs acc tag, EntryOK base fs e := by
  unfold imgPassStep
  cases tag.src with
  | none => exact h
  | some name =>
    dsimp only
    split
    next hcond =>
      intro e he
      rcases List.mem_append.mp he with he | he
      · exact h e he
      · simp only [List.mem_singleton] at he
        subst he
        exact ⟨hcond, pathName name, rfl, pathName_no_slash name⟩
    next => exact h

theorem mdPassStep_entryOK (base : PyPath) (fs : PyPath → Bool)
    (acc : List (PyPath × String)) (link : String × String)
    (h : ∀ e ∈ acc, EntryOK base fs e) :
    ∀ e ∈ mdPassStep base fs acc link, EntryOK base fs e := by
  unfold mdPassStep
  dsimp only
  split
  next hcond =>
    intro e he
    rcases List.mem_append.mp he with he | he
    · exact h e he
    · simp only [List.mem_singleton] at he
      subst he
      obtain ⟨hfs, -⟩ := Bool.and_eq_true_iff.mp hcond
      exact ⟨hfs, (mdLinkNameSuffix link.1 link.2).1, rfl,
        mdLinkNameSuffix_fst_no_slash link.1 link.2⟩
  next => exact h

theorem aPassStep_entryOK (base : PyPath) (fs : PyPath → Bool)
    (acc : List (PyPath × String)) (tag : ATag)
    (h : ∀ e ∈ acc, EntryOK base fs e) :
    ∀ e ∈ aPassStep base fs acc tag, EntryOK base fs e := by
  unfold aPassStep
  cases tag.href with
  | none => exact h
  | some name =>
    dsimp only
    split
    next hcond =>
      intro e he
      rcases List.mem_append.mp he with he | he
      · exact h e he
      · simp only [List.mem_singleton] at he
        subst he
        obtain ⟨hfs, -⟩ := Bool.and_eq_true_iff.mp hcond
        exact ⟨hfs, pathName name, rfl, pathName_no_slash name⟩
    next => exact h

theorem foldl_entryOK {β : Type}
    {step : List (PyPath × String) → β → List (PyPath × String)}
    (base : PyPath) (fs : PyPath → Bool)
    (hstep : ∀ acc x, (∀ e ∈ acc, EntryOK base fs e) →
      ∀ e ∈ step acc x, EntryOK base fs e) :
    ∀ (l : List β) (acc : List (PyPath × String)),
      (∀ e ∈ acc, EntryOK base fs e) →
      ∀ e ∈ l.foldl step acc, EntryOK base fs e := by
  intro l
  induction l with
  | nil => intro acc h; simpa using h
  | cons x xs ih => intro acc h; exact ih _ (hstep _ _ h)

theorem normalizePath_append_name (p : PyPath) (n : String)
    (h0 : n ≠ "") (h1 : n ≠ ".") (h2 : n ≠ "..") :
    normalizePath (p ++ [n]) = normalizePath p ++ [n] := by
  unfold normalizePath
  rw [List.foldl_append]
  dsimp only [List.foldl]
  rw [if_neg (by simp [h0, h1]), if_neg h2]

/-- C9 (amended): every entry returned by `find_resource_paths` passed
the existence filter, and its path is literally
`base/_resources/<name>` where `<name>` is a single component with no
path separator (or `base/_resources` itself when the name is empty) —
so a reference can never address a sibling or deeper directory; however
the component is taken verbatim, so a link target whose final component
is `..` yields `base/_resources/..`, which resolves to the parent of
`_resources`.  For every other name the resolved path stays directly
inside `_resources`. -/
theorem C9_amended_containment (base : PyPath) (fs : PyPath → Bool)
    (imgs : List ImgTag) (mds : List (String × String)) (ats : List ATag) :
    ∀ e ∈ find_resource_paths base fs imgs mds ats,
      fs e.1 = true
      ∧ ∃ n, e.1 = resolvedPath base n ∧ '/' ∉ n.data
        ∧ (n ≠ "" → n ≠ "." → n ≠ ".." →
            normalizePath e.1
              = normalizePath (base ++ ["_resources"]) ++ [n]) := by
  intro e he
  have hok : EntryOK base fs e := by
    unfold find_resource_paths at he
    have he2 := List.mem_dedup.mp he
    exact foldl_entryOK base fs (aPassStep_entryOK base fs) ats _
      (foldl_entryOK base fs (mdPassStep_entryOK base fs) mds _
        (foldl_entryOK base fs (imgPassStep_entryOK base fs) imgs []
          (by simp)) ) e he2
  obtain ⟨hfs, n, hpath, hnoslash⟩ := hok
  refine ⟨hfs, n, hpath, hnoslash, ?_⟩
  intro h0 h1 h2
  rw [hpath]
  unfold resolvedPath
  rw [joinName, if_neg h0]
  exact normalizePath_append_name (base ++ ["_resources"]) n h0 h1 h2

/-- Witness for C9 (amended) at a concrete input: the single returned
entry for target `r.pdf` exists, sits at `_resources/r.pdf`, and
normalizes to a path directly inside `_resources`. -/
theorem C9_amended_witness :
    (fun p : PyPath => p == ["_resources", "r.pdf"])
        ((["_resources", "r.pdf"] : PyPath)) = true
    ∧ ∃ n, (["_resources", "r.pdf"] : PyPath) = resolvedPath [] n
        ∧ '/' ∉ n.data
        ∧ (n ≠ "" → n ≠ "." → n ≠ ".." →
            normalizePath ["_resources", "r.pdf"]
              = normalizePath ([] ++ ["_resources"]) ++ [n]) :=
  C9_amended_containment [] (fun p => p == ["_resources", "r.pdf"])
    [⟨some "r.pdf", none, none⟩] [] [] (["_resources", "r.pdf"], ".pdf")
    (by decide)

/-- C9 counterexample: an img tag whose target is `..` produces the entry
`base/_resources/..` (the final component is taken verbatim), which the
operating system resolves to the parent of `_resources` — here the export
root `root`, a directory that exists — so the returned path escapes the
`_resources` directory, contrary to the claim. -/
theorem C9_counterexample :
    find_resource_paths ["root"]
        (fun p => [(["root"] : PyPath),
          ["root", "_resources"]].contains (normalizePath p))
        [⟨some "..", none, none⟩] [] []
      = [((["root", "_resources", ".."] : PyPath), "")]
    ∧ normalizePath ["root", "_resources", ".."] = ["root"]
    ∧ ("_resources" : String) ∉ normalizePath ["root", "_resources", ".."]
    :=
  ⟨by decide, by decide, by decide⟩

end J2P
